import Mathlib

/-!
Verification of the suggestion reconciliation engine, the admission limiter
and the model-gateway degrade path of the periksa-kata proxy
(src/unnamed/part_001). JavaScript strings are modelled as lists of
characters, JavaScript numbers at the numeric candidate fields as integers,
and the clock reading used for synthesized ids as an explicit integer
argument. External collaborators (the network transport and the platform
JSON.parse) appear as explicit inputs of the gateway model.
-/

namespace PeriksaKata

/-- A primitive JSON value, used for fields of a candidate object that the
pipeline never inspects (for example confidence, examples, rules). They are
only carried through the object spread on lines 549-556. -/
inductive JsLit where
  | str (s : List Char)
  | num (n : Int)
  | boolVal (b : Bool)
  | nullVal
deriving DecidableEq

/-- The value found at a numeric field of a candidate object: the key can be
absent, present with a non-number value, or present with a number. -/
inductive JsNumField where
  | absent
  | notNum
  | num (n : Int)
deriving DecidableEq

/-- A candidate correction object as decoded from the model JSON. A value of
none means the key is absent. String-valued fields are lists of characters.
Keys other than the recognised ones live in extra and are never read by the
pipeline, only copied by the object spread. -/
structure Candidate where
  category? : Option (List Char)
  severity? : Option (List Char)
  message? : Option (List Char)
  before? : Option (List Char)
  after? : Option (List Char)
  startRaw : JsNumField
  endRaw : JsNumField
  id? : Option (List Char)
  extra : List (List Char × JsLit)
deriving DecidableEq

/-- An element of the parsed suggestions array: either not an object, which
the shape check drops, or a candidate object. -/
inductive RawCand where
  | nonObject
  | obj (c : Candidate)
deriving DecidableEq

/-- A processed suggestion as produced by the reconciliation loop. The field
endPos models the JS field end, a reserved word in Lean. -/
structure Suggestion where
  start : Nat
  endPos : Nat
  category : List Char
  severity : Option (List Char)
  message : List Char
  before : List Char
  after : List Char
  id : List Char
  extra : List (List Char × JsLit)
deriving DecidableEq

/-- JS String.prototype.slice for indices already clamped so that
0 <= s <= e <= length: take the first e characters, then drop the first s. -/
def sliceList (t : List Char) (s e : Nat) : List Char := (t.take e).drop s

/-- The needle matches the haystack at position i. -/
def isSubAt (hay needle : List Char) (i : Nat) : Bool :=
  decide (needle = (hay.drop i).take needle.length)

/-- All match positions of the needle in the haystack, in increasing order.
This models the indexOf loop of findNearestIndex (lines 317-323), which
advances by one character after each hit and therefore enumerates every
match position from left to right. -/
def occurrences (hay needle : List Char) : List Nat :=
  (List.range hay.length).filter (fun i => isSubAt hay needle i)

/-- Distance of a match position from the approximate index reported by the
model (Math.abs on line 327). -/
def distTo (approx : Int) (i : Nat) : Nat := ((i : Int) - approx).natAbs

/-- The selection fold of findNearestIndex over the occurrences after the
first (lines 326-335): a later occurrence replaces the best one only at a
strictly smaller distance, so the earliest occurrence wins ties. -/
def nearestTo (approx : Int) (o : Nat) (os : List Nat) : Nat :=
  os.foldl (fun best i => if distTo approx i < distTo approx best then i else best) o

/-- findNearestIndex, lines 314-336: the exact occurrence of the needle
nearest to approx; none for an empty needle or when there is no occurrence.
The approx argument is always supplied at the call sites. -/
def findNearestIndex (hay needle : List Char) (approx : Int) : Option Nat :=
  if needle.isEmpty then none
  else
    match occurrences hay needle with
    | [] => none
    | o :: os => some (nearestTo approx o os)

/-- Character lowering, modelling String.prototype.toLowerCase character by
character. -/
def lowerStr (s : List Char) : List Char := s.map Char.toLower

/-- findNearestIndexCI, lines 339-363: the same search on the lowered
haystack and needle. Positions in the lowered haystack coincide with
positions in the original haystack because lowering is per character. -/
def findNearestIndexCI (hay needle : List Char) (approx : Int) : Option Nat :=
  if (lowerStr needle).isEmpty then none
  else
    match occurrences (lowerStr hay) (lowerStr needle) with
    | [] => none
    | o :: os => some (nearestTo approx o os)

/-- Line 498: a start that is not a number becomes 0. -/
def coerceStart (startRaw : JsNumField) : Int :=
  match startRaw with
  | .num n => n
  | _ => 0

/-- Line 499: an end that is not a number becomes the minimum of the text
length and the coerced start plus the length of before. -/
def coerceEnd (len : Nat) (start0 : Int) (beforeLen : Nat) (endRaw : JsNumField) : Int :=
  match endRaw with
  | .num n => n
  | _ => min (len : Int) (start0 + (beforeLen : Int))

/-- Line 500: the start clamped between 0 and the text length. -/
def resolvedStart (len : Nat) (startRaw : JsNumField) : Int :=
  max 0 (min (coerceStart startRaw) (len : Int))

/-- Line 501: the end clamped between the clamped start and the text
length. -/
def resolvedEnd (len beforeLen : Nat) (startRaw endRaw : JsNumField) : Int :=
  max (resolvedStart len startRaw)
    (min (coerceEnd len (coerceStart startRaw) beforeLen endRaw) (len : Int))

/-- Lines 496-535: bounds coercion, exact-match check, tier-1 exact repair
and tier-2 case-insensitive repair. Returns the final start, the final end
and the actual substring of the text at that span, which the loop stores in
the before field of the output; none when the candidate is unrecoverable. -/
def resolveSpan (text before : List Char) (startRaw endRaw : JsNumField) :
    Option (Nat × Nat × List Char) :=
  if sliceList text (resolvedStart text.length startRaw).toNat
      (resolvedEnd text.length before.length startRaw endRaw).toNat = before then
    some ((resolvedStart text.length startRaw).toNat,
          (resolvedEnd text.length before.length startRaw endRaw).toNat,
          sliceList text (resolvedStart text.length startRaw).toNat
            (resolvedEnd text.length before.length startRaw endRaw).toNat)
  else
    match findNearestIndex text before (resolvedStart text.length startRaw) with
    | some idx => some (idx, idx + before.length, sliceList text idx (idx + before.length))
    | none =>
      match findNearestIndexCI text before (resolvedStart text.length startRaw) with
      | some idx => some (idx, idx + before.length, sliceList text idx (idx + before.length))
      | none => none

/-- The category enumeration checked on line 487. -/
def CATEGORIES : List (List Char) :=
  ["typo".toList, "baku".toList, "eyd".toList, "konteks".toList]

/-- The severity enumeration checked on line 491. -/
def SEVERITIES : List (List Char) :=
  ["low".toList, "medium".toList, "high".toList]

/-- basicSuggestionShapeValid, lines 574-581: the value must be an object and
the six required keys must all be present. -/
def basicSuggestionShapeValid : RawCand → Bool
  | .nonObject => false
  | .obj c =>
      c.category?.isSome && c.message?.isSome && c.before?.isSome && c.after?.isSome &&
      decide (c.startRaw ≠ JsNumField.absent) && decide (c.endRaw ≠ JsNumField.absent)

/-- Lines 491-494: a falsy severity (absent key or empty string) passes the
check without validation; a non-empty value must be in the fixed set. -/
def severityOk (sev : Option (List Char)) : Bool :=
  match sev with
  | none => true
  | some s => s.isEmpty || SEVERITIES.contains s

/-- The overlap predicate of lines 474-475: a new span conflicts with an
accepted span unless it ends at or before the accepted start or begins at or
after the accepted end. -/
def overlaps (taken : List (Nat × Nat)) (s e : Nat) : Bool :=
  taken.any (fun r => !(decide (e ≤ r.1) || decide (r.2 ≤ s)))

/-- The control characters replaced by spaces on line 659. -/
def isCtrlChar (c : Char) : Bool :=
  decide (c.toNat ≤ 8) || c.toNat == 11 || c.toNat == 12 ||
  (decide (14 ≤ c.toNat) && decide (c.toNat ≤ 31)) || c.toNat == 127

/-- The JS whitespace class matched by the pattern on line 660. -/
def isJsSpace (c : Char) : Bool :=
  c.toNat == 9 || c.toNat == 10 || c.toNat == 11 || c.toNat == 12 || c.toNat == 13 ||
  c.toNat == 32 || c.toNat == 160 || c.toNat == 5760 ||
  (decide (8192 ≤ c.toNat) && decide (c.toNat ≤ 8202)) ||
  c.toNat == 8232 || c.toNat == 8233 || c.toNat == 8239 || c.toNat == 8287 ||
  c.toNat == 12288 || c.toNat == 65279

/-- Replacement of every maximal whitespace run by a single space (line 660);
the flag records whether the previous character was whitespace. -/
def collapseSpacesAux : Bool → List Char → List Char
  | _, [] => []
  | prevWs, c :: cs =>
    if isJsSpace c then
      if prevWs then collapseSpacesAux true cs
      else ' ' :: collapseSpacesAux true cs
    else c :: collapseSpacesAux false cs

/-- String.prototype.trim: remove leading and trailing whitespace. -/
def trimWs (l : List Char) : List Char :=
  ((l.dropWhile isJsSpace).reverse.dropWhile isJsSpace).reverse

/-- sanitizeString, lines 655-668: control characters become spaces,
whitespace runs collapse to one space, the result is trimmed and then
truncated to maxLen characters. Both call sites pass a positive number for
maxLen. -/
def sanitizeString (input : List Char) (maxLen : Nat) : List Char :=
  let s1 := input.map fun c => if isCtrlChar c then ' ' else c
  let s2 := trimWs (collapseSpacesAux false s1)
  if 0 < maxLen ∧ maxLen < s2.length then s2.take maxLen else s2

/-- Line 560: the id synthesized for a candidate whose id is falsy, from the
clock reading and the candidate index in the raw array. -/
def synthId (now : Int) (i : Nat) : List Char :=
  ("sg-" ++ toString now ++ "-" ++ toString i).toList

/-- Lines 481-542 of the per-candidate pipeline: shape check, category and
severity checks, span resolution and the overlap check. Returns the
candidate together with the resolved span and actual substring when the
candidate is accepted. -/
def stepCore (text : List Char) (taken : List (Nat × Nat)) (rc : RawCand) :
    Option (Candidate × Nat × Nat × List Char) :=
  match rc with
  | .nonObject => none
  | .obj c =>
    if basicSuggestionShapeValid (.obj c) then
      if CATEGORIES.contains (c.category?.getD []) then
        if severityOk c.severity? then
          match resolveSpan text (c.before?.getD []) c.startRaw c.endRaw with
          | some (s, e, actual) =>
            if overlaps taken s e then none else some (c, s, e, actual)
          | none => none
        else none
      else none
    else none

/-- Lines 544-561: sanitization of message and after, the object spread that
copies every key of the candidate and overwrites the normalized ones, and
the id assignment for a falsy id. -/
def mkFixed (now : Int) (i : Nat) (c : Candidate) (s e : Nat) (actual : List Char) :
    Suggestion :=
  { start := s
    endPos := e
    category := c.category?.getD []
    severity := c.severity?
    message := sanitizeString (c.message?.getD []) 200
    before := actual
    after := sanitizeString (c.after?.getD []) 100
    id := match c.id? with
      | some s0 => if s0.isEmpty then synthId now i else s0
      | none => synthId now i
    extra := c.extra }

/-- One iteration of the candidate loop: the checks of stepCore followed by
the construction of the fixed suggestion. -/
def step (text : List Char) (now : Int) (i : Nat) (taken : List (Nat × Nat))
    (rc : RawCand) : Option Suggestion :=
  (stepCore text taken rc).map fun q => mkFixed now i q.1 q.2.1 q.2.2.1 q.2.2.2

/-- The candidate loop of checkTextWithOpenAI, lines 477-568: process the
candidates in order, keeping the accepted spans in taken and the accepted
suggestions in acc (in reverse order), and stop as soon as 20 suggestions
have been accepted (line 567). -/
def reconcileLoop (text : List Char) (now : Int) :
    List RawCand → Nat → List (Nat × Nat) → List Suggestion → List Suggestion
  | [], _, _, acc => acc.reverse
  | rc :: rest, i, taken, acc =>
    match step text now i taken rc with
    | none => reconcileLoop text now rest (i + 1) taken acc
    | some s =>
      if 20 ≤ (s :: acc).length then (s :: acc).reverse
      else reconcileLoop text now rest (i + 1) ((s.start, s.endPos) :: taken) (s :: acc)

/-- The reconciliation engine: the candidate-processing loop applied to the
raw candidate array, an empty taken list and an empty accepted list. The now
argument is the Date.now() reading used for synthesized ids. -/
def processCands (text : List Char) (cands : List RawCand) (now : Int) :
    List Suggestion :=
  reconcileLoop text now cands 0 [] []

/-- Rate-limit configuration, lines 16-19. -/
def RATE_LIMIT_maxRequests : Nat := 10

/-- Rate-limit window in milliseconds, line 18. -/
def RATE_LIMIT_windowMs : Int := 60000

/-- checkRateLimitInMemory, lines 242-257, for one client identity: filter
the recorded timestamps to the trailing window; reject when at least
maxRequests remain, leaving the stored list unchanged; otherwise record the
new timestamp after the filtered ones and allow. The pair is the decision
and the stored list after the call. -/
def checkRateLimitInMemory (now : Int) (requests : List Int) : Bool × List Int :=
  let validRequests := requests.filter fun t => decide (now - t < RATE_LIMIT_windowMs)
  if RATE_LIMIT_maxRequests ≤ validRequests.length then (false, requests)
  else (true, validRequests ++ [now])

/-- A sequence of limiter calls for one identity at the given times, starting
from the given stored list: the decisions in order and the final store. -/
def runCalls (times : List Int) (init : List Int) : List Bool × List Int :=
  times.foldl (fun acc t =>
    let r := checkRateLimitInMemory t acc.2
    (acc.1 ++ [r.1], r.2)) ([], init)

/-- The parsed model document as far as the pipeline reads it: the
suggestions key holds an array of raw candidates, or none when the key is
missing or not an array (line 470). -/
structure ParsedDoc where
  suggestions? : Option (List RawCand)

/-- The brace-depth scan of extractJSONBlock, lines 606-617, with the JS
depth counter made explicit: collect characters, increment on an opening
brace, decrement on a closing brace and stop when the depth returns to
zero. -/
def braceScan : List Char → Int → List Char → Option (List Char)
  | [], _, _ => none
  | c :: cs, depth, acc =>
    if c = '{' then braceScan cs (depth + 1) (acc ++ [c])
    else if c = '}' then
      if depth - 1 = 0 then some (acc ++ [c]) else braceScan cs (depth - 1) (acc ++ [c])
    else braceScan cs depth (acc ++ [c])

/-- extractJSONBlock, lines 602-618: none for an empty string or when no
opening brace occurs; otherwise the brace-depth scan starting at the first
opening brace. -/
def extractJSONBlock (s : List Char) : Option (List Char) :=
  if s.isEmpty then none
  else
    let tail := s.dropWhile fun c => c ≠ '{'
    if tail.isEmpty then none
    else braceScan tail 0 []

/-- tryParseJSONWithRepair, lines 584-599, over an abstract JSON.parse (a
platform builtin, passed as a function returning none on a parse error):
direct parse first, then the parse of the extracted brace block; none when
both fail or no block is found. -/
def tryParseJSONWithRepair (jsonParse : List Char → Option ParsedDoc)
    (content : List Char) : Option ParsedDoc :=
  match jsonParse content with
  | some v => some v
  | none =>
    match extractJSONBlock content with
    | some block => jsonParse block
    | none => none

/-- The temperature of the primary model request, line 428, in hundredths
represented as a rational. -/
def primaryTemperature : Rat := 1 / 10

/-- The temperature of the strict-retry request, line 635. -/
def strictRetryTemperature : Rat := 0

/-- The result of the gateway parse-and-reconcile stage: the suggestion list
and how many strict retries were issued. -/
structure GatewayResult where
  suggestions : List Suggestion
  retries : Nat
deriving DecidableEq

/-- The parse of the strict-retry content, lines 459-466: the same repair
parse applied to the retry content; a second parse failure degrades to an
empty list. -/
def retryParse (jsonParse : List Char → Option ParsedDoc) (text retryRaw : List Char)
    (now : Int) : GatewayResult :=
  match tryParseJSONWithRepair jsonParse retryRaw with
  | some parsed => ⟨processCands text (parsed.suggestions?.getD []) now, 1⟩
  | none => ⟨[], 1⟩

/-- The strict-retry recovery path, lines 453-466: no retry content (a
transport failure, a thrown error or empty content, lines 640-651) degrades
to an empty list; otherwise the retry content is parsed. -/
def retryStage (jsonParse : List Char → Option ParsedDoc) (text : List Char)
    (retryContent : Option (List Char)) (now : Int) : GatewayResult :=
  match retryContent with
  | none => ⟨[], 1⟩
  | some retryRaw => retryParse jsonParse text retryRaw now

/-- The parse, retry and reconciliation stage of checkTextWithOpenAI, lines
446-570. The primary content is the first model response; retryContent is
what strictRetryJSON produced. When the primary content fails both parses,
exactly one strict retry is consulted. -/
def checkTextWithOpenAI (jsonParse : List Char → Option ParsedDoc)
    (text content : List Char) (retryContent : Option (List Char)) (now : Int) :
    GatewayResult :=
  match tryParseJSONWithRepair jsonParse content with
  | some parsed => ⟨processCands text (parsed.suggestions?.getD []) now, 0⟩
  | none => retryStage jsonParse text retryContent now

/-! ### Facts about occurrences and the nearest-occurrence search -/

lemma mem_occurrences {hay needle : List Char} {i : Nat} :
    i ∈ occurrences hay needle ↔ i < hay.length ∧ isSubAt hay needle i = true := by
  simp [occurrences, List.mem_filter, List.mem_range]

lemma occurrences_sorted (hay needle : List Char) :
    (occurrences hay needle).Pairwise (· < ·) :=
  (List.pairwise_lt_range _).filter _

lemma isSubAt_take {hay needle : List Char} {i : Nat} (h : isSubAt hay needle i = true) :
    needle = (hay.drop i).take needle.length := by
  simpa [isSubAt] using h

lemma isSubAt_add_le {hay needle : List Char} {i : Nat} (hne : needle ≠ [])
    (h : isSubAt hay needle i = true) : i + needle.length ≤ hay.length := by
  have ht := isSubAt_take h
  have hlen := congrArg List.length ht
  simp [List.length_take, List.length_drop] at hlen
  have hpos : needle.length ≠ 0 := by
    simpa [List.length_eq_zero] using hne
  omega

lemma sliceList_at_occurrence {hay needle : List Char} {i : Nat}
    (h : isSubAt hay needle i = true) :
    sliceList hay i (i + needle.length) = needle := by
  have ht := isSubAt_take h
  unfold sliceList
  rw [← List.take_drop]
  exact ht.symm

lemma sliceList_length {t : List Char} {s e : Nat} (he : e ≤ t.length) :
    (sliceList t s e).length = e - s := by
  simp [sliceList, List.length_drop, List.length_take]
  omega

lemma nearestTo_mem (approx : Int) :
    ∀ (os : List Nat) (o : Nat), nearestTo approx o os ∈ o :: os := by
  intro os
  induction os with
  | nil => intro o; simp [nearestTo]
  | cons i rest ih =>
    intro o
    have hstep : nearestTo approx o (i :: rest) =
        nearestTo approx (if distTo approx i < distTo approx o then i else o) rest := rfl
    rw [hstep]
    rcases List.mem_cons.mp (ih (if distTo approx i < distTo approx o then i else o)) with hm | hm
    · rw [hm]
      by_cases hd : distTo approx i < distTo approx o
      · simp [if_pos hd]
      · simp [if_neg hd]
    · exact List.mem_cons_of_mem _ (List.mem_cons_of_mem _ hm)

lemma nearestTo_spec (approx : Int) :
    ∀ (os : List Nat) (o : Nat), (o :: os).Pairwise (· < ·) →
      (∀ j ∈ o :: os, distTo approx (nearestTo approx o os) ≤ distTo approx j) ∧
      (∀ j ∈ o :: os, distTo approx j = distTo approx (nearestTo approx o os) →
        nearestTo approx o os ≤ j) := by
  intro os
  induction os with
  | nil =>
    intro o _
    constructor
    · intro j hj
      simp at hj
      simp [hj, nearestTo]
    · intro j hj _
      simp at hj
      simp [hj, nearestTo]
  | cons i rest ih =>
    intro o hsorted
    rw [List.pairwise_cons] at hsorted
    obtain ⟨hoall, hsorted2⟩ := hsorted
    rw [List.pairwise_cons] at hsorted2
    obtain ⟨hiall, hrest⟩ := hsorted2
    have hoi : o < i := hoall i (List.mem_cons_self _ _)
    have hstep : nearestTo approx o (i :: rest) =
        nearestTo approx (if distTo approx i < distTo approx o then i else o) rest := rfl
    by_cases hd : distTo approx i < distTo approx o
    · -- the second occurrence strictly improves: continue from i
      have hb : (i :: rest).Pairwise (· < ·) := List.pairwise_cons.mpr ⟨hiall, hrest⟩
      obtain ⟨hmin, htie⟩ := ih i hb
      have hmem := nearestTo_mem approx rest i
      rw [hstep, if_pos hd]
      constructor
      · intro j hj
        rcases List.mem_cons.mp hj with rfl | hj2
        · exact le_trans (hmin i (List.mem_cons_self _ _)) (le_of_lt hd)
        · exact hmin j hj2
      · intro j hj heq
        rcases List.mem_cons.mp hj with rfl | hj2
        · exfalso
          have h1 : distTo approx (nearestTo approx i rest) ≤ distTo approx i :=
            hmin i (List.mem_cons_self _ _)
          omega
        · exact htie j hj2 heq
    · -- keep the earlier occurrence o
      have hb : (o :: rest).Pairwise (· < ·) := by
        refine List.pairwise_cons.mpr ⟨?_, hrest⟩
        intro x hx
        exact hoall x (List.mem_cons_of_mem _ hx)
      obtain ⟨hmin, htie⟩ := ih o hb
      have hmem := nearestTo_mem approx rest o
      rw [hstep, if_neg hd]
      constructor
      · intro j hj
        rcases List.mem_cons.mp hj with rfl | hj2
        · exact hmin j (List.mem_cons_self _ _)
        · rcases List.mem_cons.mp hj2 with rfl | hj3
          · exact le_trans (hmin o (List.mem_cons_self _ _)) (le_of_not_lt hd)
          · exact hmin j (List.mem_cons_of_mem _ hj3)
      · intro j hj heq
        rcases List.mem_cons.mp hj with rfl | hj2
        · exact htie j (List.mem_cons_self _ _) heq
        · rcases List.mem_cons.mp hj2 with rfl | hj3
          · -- a tie against the later occurrence i
            have h1 : distTo approx (nearestTo approx o rest) ≤ distTo approx o :=
              hmin o (List.mem_cons_self _ _)
            have h2 : distTo approx o ≤ distTo approx j := le_of_not_lt hd
            have h3 : distTo approx o = distTo approx (nearestTo approx o rest) := by omega
            have h4 : nearestTo approx o rest ≤ o := htie o (List.mem_cons_self _ _) h3
            exact le_of_lt (lt_of_le_of_lt h4 hoi)
          · exact htie j (List.mem_cons_of_mem _ hj3) heq

lemma findNearestIndex_eq_some {hay needle : List Char} (approx : Int)
    (hne : needle ≠ []) (hocc : occurrences hay needle ≠ []) :
    ∃ m, findNearestIndex hay needle approx = some m ∧
      m ∈ occurrences hay needle ∧
      (∀ j ∈ occurrences hay needle, distTo approx m ≤ distTo approx j) ∧
      (∀ j ∈ occurrences hay needle, distTo approx j = distTo approx m → m ≤ j) := by
  have hemp : needle.isEmpty = false := by
    simpa [List.isEmpty_iff] using hne
  cases hc : occurrences hay needle with
  | nil => exact absurd hc hocc
  | cons o os =>
    have hsorted : (o :: os).Pairwise (· < ·) := by
      rw [← hc]; exact occurrences_sorted hay needle
    obtain ⟨hmin, htie⟩ := nearestTo_spec approx os o hsorted
    have hmem := nearestTo_mem approx os o
    refine ⟨nearestTo approx o os, ?_, hmem, hmin, htie⟩
    unfold findNearestIndex
    rw [hemp, hc]
    rfl

lemma findNearestIndex_mem {hay needle : List Char} {approx : Int} {m : Nat}
    (h : findNearestIndex hay needle approx = some m) :
    needle ≠ [] ∧ m ∈ occurrences hay needle := by
  unfold findNearestIndex at h
  by_cases hemp : needle.isEmpty
  · rw [if_pos hemp] at h; exact absurd h (by simp)
  · rw [if_neg hemp] at h
    refine ⟨by simpa [List.isEmpty_iff] using hemp, ?_⟩
    cases hc : occurrences hay needle with
    | nil => rw [hc] at h; exact absurd h (by simp)
    | cons o os =>
      rw [hc] at h
      have hm : m = nearestTo approx o os := by
        simpa using h.symm
      rw [hm]
      exact nearestTo_mem approx os o

lemma findNearestIndexCI_mem {hay needle : List Char} {approx : Int} {m : Nat}
    (h : findNearestIndexCI hay needle approx = some m) :
    lowerStr needle ≠ [] ∧ m ∈ occurrences (lowerStr hay) (lowerStr needle) := by
  unfold findNearestIndexCI at h
  by_cases hemp : (lowerStr needle).isEmpty
  · rw [if_pos hemp] at h; exact absurd h (by simp)
  · rw [if_neg hemp] at h
    refine ⟨by simpa [List.isEmpty_iff] using hemp, ?_⟩
    cases hc : occurrences (lowerStr hay) (lowerStr needle) with
    | nil => rw [hc] at h; exact absurd h (by simp)
    | cons o os =>
      rw [hc] at h
      have hm : m = nearestTo approx o os := by
        simpa using h.symm
      rw [hm]
      exact nearestTo_mem approx os o

lemma findNearestIndexCI_eq_some {hay needle : List Char} (approx : Int)
    (hne : lowerStr needle ≠ []) (hocc : occurrences (lowerStr hay) (lowerStr needle) ≠ []) :
    ∃ m, findNearestIndexCI hay needle approx = some m ∧
      m ∈ occurrences (lowerStr hay) (lowerStr needle) ∧
      (∀ j ∈ occurrences (lowerStr hay) (lowerStr needle), distTo approx m ≤ distTo approx j) ∧
      (∀ j ∈ occurrences (lowerStr hay) (lowerStr needle),
        distTo approx j = distTo approx m → m ≤ j) := by
  have hemp : (lowerStr needle).isEmpty = false := by
    simpa [List.isEmpty_iff] using hne
  cases hc : occurrences (lowerStr hay) (lowerStr needle) with
  | nil => exact absurd hc hocc
  | cons o os =>
    have hsorted : (o :: os).Pairwise (· < ·) := by
      rw [← hc]; exact occurrences_sorted _ _
    obtain ⟨hmin, htie⟩ := nearestTo_spec approx os o hsorted
    have hmem := nearestTo_mem approx os o
    refine ⟨nearestTo approx o os, ?_, hmem, hmin, htie⟩
    unfold findNearestIndexCI
    rw [hemp, hc]
    rfl

/-! ### Facts about the resolved span and the per-candidate step -/

lemma resolvedStart_nonneg (len : Nat) (sR : JsNumField) : 0 ≤ resolvedStart len sR :=
  le_max_left _ _

lemma resolvedStart_le_len (len : Nat) (sR : JsNumField) :
    resolvedStart len sR ≤ (len : Int) :=
  max_le (Int.ofNat_nonneg len) (min_le_right _ _)

lemma resolvedStart_le_resolvedEnd (len bl : Nat) (sR eR : JsNumField) :
    resolvedStart len sR ≤ resolvedEnd len bl sR eR :=
  le_max_left _ _

lemma resolvedEnd_le_len (len bl : Nat) (sR eR : JsNumField) :
    resolvedEnd len bl sR eR ≤ (len : Int) :=
  max_le (resolvedStart_le_len len sR) (min_le_right _ _)

lemma lowerStr_length (s : List Char) : (lowerStr s).length = s.length :=
  List.length_map _ _

lemma resolveSpan_spec {text before : List Char} {startRaw endRaw : JsNumField}
    {s e : Nat} {actual : List Char}
    (h : resolveSpan text before startRaw endRaw = some (s, e, actual)) :
    actual = sliceList text s e ∧ s ≤ e ∧ e ≤ text.length := by
  unfold resolveSpan at h
  split at h
  · -- the exact-match branch
    obtain ⟨h1, h2, h3⟩ : (resolvedStart text.length startRaw).toNat = s ∧
        (resolvedEnd text.length before.length startRaw endRaw).toNat = e ∧
        sliceList text (resolvedStart text.length startRaw).toNat
          (resolvedEnd text.length before.length startRaw endRaw).toNat = actual := by
      have := Option.some.inj h
      exact ⟨congrArg Prod.fst this, congrArg Prod.fst (congrArg Prod.snd this),
        congrArg Prod.snd (congrArg Prod.snd this)⟩
    subst h1 h2
    refine ⟨h3.symm, ?_, ?_⟩
    · exact Int.toNat_le_toNat (resolvedStart_le_resolvedEnd _ _ _ _)
    · exact Int.toNat_le.mpr (resolvedEnd_le_len _ _ _ _)
  · -- the repair branches
    rename_i hmis
    cases hfn : findNearestIndex text before (resolvedStart text.length startRaw) with
    | some idx =>
      rw [hfn] at h
      obtain ⟨hne, hmem⟩ := findNearestIndex_mem hfn
      obtain ⟨h1, h2, h3⟩ : idx = s ∧ idx + before.length = e ∧
          sliceList text idx (idx + before.length) = actual := by
        have := Option.some.inj h
        exact ⟨congrArg Prod.fst this, congrArg Prod.fst (congrArg Prod.snd this),
          congrArg Prod.snd (congrArg Prod.snd this)⟩
      subst h1 h2
      exact ⟨h3.symm, Nat.le_add_right _ _,
        isSubAt_add_le hne (mem_occurrences.mp hmem).2⟩
    | none =>
      rw [hfn] at h
      cases hci : findNearestIndexCI text before (resolvedStart text.length startRaw) with
      | some idx =>
        rw [hci] at h
        obtain ⟨hne, hmem⟩ := findNearestIndexCI_mem hci
        obtain ⟨h1, h2, h3⟩ : idx = s ∧ idx + before.length = e ∧
            sliceList text idx (idx + before.length) = actual := by
          have := Option.some.inj h
          exact ⟨congrArg Prod.fst this, congrArg Prod.fst (congrArg Prod.snd this),
            congrArg Prod.snd (congrArg Prod.snd this)⟩
        subst h1 h2
        have hb : idx + (lowerStr before).length ≤ (lowerStr text).length :=
          isSubAt_add_le hne (mem_occurrences.mp hmem).2
        rw [lowerStr_length, lowerStr_length] at hb
        exact ⟨h3.symm, Nat.le_add_right _ _, hb⟩
      | none =>
        rw [hci] at h
        exact absurd h (by simp)

lemma stepCore_eq_some {text : List Char} {taken : List (Nat × Nat)} {rc : RawCand}
    {c : Candidate} {s e : Nat} {actual : List Char}
    (h : stepCore text taken rc = some (c, s, e, actual)) :
    actual = sliceList text s e ∧ s ≤ e ∧ e ≤ text.length ∧
      overlaps taken s e = false := by
  cases rc with
  | nonObject => exact absurd h (by simp [stepCore])
  | obj c0 =>
    by_cases h1 : basicSuggestionShapeValid (RawCand.obj c0)
    case neg => simp [stepCore, h1] at h
    by_cases h2 : c0.category?.getD [] ∈ CATEGORIES
    case neg => simp [stepCore, h1, h2] at h
    by_cases h3 : severityOk c0.severity? = true
    case neg => simp [stepCore, h1, h2, h3] at h
    cases hr : resolveSpan text (c0.before?.getD []) c0.startRaw c0.endRaw with
    | none => simp [stepCore, h1, h2, h3, hr] at h
    | some q =>
      obtain ⟨s0, e0, a0⟩ := q
      by_cases h4 : overlaps taken s0 e0 = true
      case pos => simp [stepCore, h1, h2, h3, hr, h4] at h
      case neg =>
        simp [stepCore, h1, h2, h3, hr, h4] at h
        obtain ⟨hc1, hc2, hc3, hc4⟩ := h
        subst hc2 hc3 hc4
        obtain ⟨ha, hse, hel⟩ := resolveSpan_spec hr
        exact ⟨ha, hse, hel, by simpa using h4⟩

lemma stepCore_cand {text : List Char} {taken : List (Nat × Nat)} {c c' : Candidate}
    {s e : Nat} {a : List Char}
    (h : stepCore text taken (RawCand.obj c) = some (c', s, e, a)) : c' = c := by
  by_cases h1 : basicSuggestionShapeValid (RawCand.obj c)
  case neg => simp [stepCore, h1] at h
  by_cases h2 : c.category?.getD [] ∈ CATEGORIES
  case neg => simp [stepCore, h1, h2] at h
  by_cases h3 : severityOk c.severity? = true
  case neg => simp [stepCore, h1, h2, h3] at h
  cases hr : resolveSpan text (c.before?.getD []) c.startRaw c.endRaw with
  | none => simp [stepCore, h1, h2, h3, hr] at h
  | some q =>
    obtain ⟨s0, e0, a0⟩ := q
    by_cases h4 : overlaps taken s0 e0 = true
    case pos => simp [stepCore, h1, h2, h3, hr, h4] at h
    case neg =>
      simp [stepCore, h1, h2, h3, hr, h4] at h
      exact h.1.symm

lemma step_eq_some {text : List Char} {now : Int} {i : Nat}
    {taken : List (Nat × Nat)} {rc : RawCand} {sg : Suggestion}
    (h : step text now i taken rc = some sg) :
    ∃ c actual, stepCore text taken rc = some (c, sg.start, sg.endPos, actual) ∧
      sg.before = actual := by
  unfold step at h
  cases hc : stepCore text taken rc with
  | none => rw [hc] at h; exact absurd h (by simp)
  | some q =>
    rw [hc] at h
    obtain ⟨c0, s0, e0, a0⟩ := q
    have hsg : sg = mkFixed now i c0 s0 e0 a0 := by
      simpa using h.symm
    subst hsg
    have hstart : (mkFixed now i c0 s0 e0 a0).start = s0 := rfl
    have hend : (mkFixed now i c0 s0 e0 a0).endPos = e0 := rfl
    have hbef : (mkFixed now i c0 s0 e0 a0).before = a0 := rfl
    refine ⟨c0, a0, ?_, hbef⟩
    rw [hstart, hend]

/-- The slice invariant together with the ordering and bounds facts that hold
for every suggestion produced by the loop. -/
def GoodS (text : List Char) (sg : Suggestion) : Prop :=
  sg.before = sliceList text sg.start sg.endPos ∧
    sg.start ≤ sg.endPos ∧ sg.endPos ≤ text.length

/-- The half-open intervals of two suggestions do not overlap: the negation
of the test start of one below end of the other in both directions. -/
def NoOv (a b : Suggestion) : Prop :=
  ¬(a.start < b.endPos ∧ b.start < a.endPos)

lemma overlaps_false_iff {taken : List (Nat × Nat)} {s e : Nat} :
    overlaps taken s e = false ↔ ∀ r ∈ taken, e ≤ r.1 ∨ r.2 ≤ s := by
  unfold overlaps
  rw [← Bool.not_eq_true, List.any_eq_true]
  constructor
  · intro h r hr
    by_contra hcon
    push_neg at hcon
    exact h ⟨r, hr, by simp [hcon.1.not_le, hcon.2.not_le]⟩
  · rintro h ⟨r, hr, hp⟩
    rcases h r hr with h1 | h1 <;> simp [h1] at hp

lemma goodS_step {text : List Char} {now : Int} {i : Nat}
    {taken : List (Nat × Nat)} {rc : RawCand} {sg : Suggestion}
    (h : step text now i taken rc = some sg) :
    GoodS text sg ∧ overlaps taken sg.start sg.endPos = false := by
  obtain ⟨c, actual, hc, hb⟩ := step_eq_some h
  obtain ⟨ha, hse, hel, hov⟩ := stepCore_eq_some hc
  exact ⟨⟨hb.trans ha, hse, hel⟩, hov⟩

lemma noOv_symm {a b : Suggestion} (h : NoOv a b) : NoOv b a := by
  unfold NoOv at *
  tauto

lemma reconcileLoop_cons_none {text : List Char} {now : Int} {rc : RawCand}
    {rest : List RawCand} {i : Nat} {taken : List (Nat × Nat)}
    {acc : List Suggestion} (h : step text now i taken rc = none) :
    reconcileLoop text now (rc :: rest) i taken acc =
      reconcileLoop text now rest (i + 1) taken acc := by
  conv_lhs => rw [reconcileLoop]
  rw [h]

lemma reconcileLoop_cons_some {text : List Char} {now : Int} {rc : RawCand}
    {rest : List RawCand} {i : Nat} {taken : List (Nat × Nat)}
    {acc : List Suggestion} {sg : Suggestion}
    (h : step text now i taken rc = some sg) :
    reconcileLoop text now (rc :: rest) i taken acc =
      (if 20 ≤ (sg :: acc).length then (sg :: acc).reverse
       else reconcileLoop text now rest (i + 1) ((sg.start, sg.endPos) :: taken)
         (sg :: acc)) := by
  conv_lhs => rw [reconcileLoop]
  rw [h]

lemma reconcileLoop_invariant (text : List Char) (now : Int) :
    ∀ (rest : List RawCand) (i : Nat) (taken : List (Nat × Nat))
      (acc : List Suggestion),
      (∀ sg ∈ acc, GoodS text sg) →
      (∀ sg ∈ acc, (sg.start, sg.endPos) ∈ taken) →
      acc.Pairwise NoOv →
      (∀ sg ∈ reconcileLoop text now rest i taken acc, GoodS text sg) ∧
        (reconcileLoop text now rest i taken acc).Pairwise NoOv := by
  intro rest
  induction rest with
  | nil =>
    intro i taken acc hGood _ hPw
    constructor
    · intro sg hsg
      exact hGood sg (by simpa [reconcileLoop] using hsg)
    · simpa [reconcileLoop, List.pairwise_reverse] using
        hPw.imp fun h => noOv_symm h
  | cons rc rest ih =>
    intro i taken acc hGood hTk hPw
    cases hs : step text now i taken rc with
    | none =>
      rw [reconcileLoop_cons_none hs]
      exact ih (i + 1) taken acc hGood hTk hPw
    | some sg =>
      rw [reconcileLoop_cons_some hs]
      obtain ⟨hGsg, hOv⟩ := goodS_step hs
      have hNo : ∀ a ∈ acc, NoOv sg a := by
        intro a ha
        have hmem := hTk a ha
        rcases overlaps_false_iff.mp hOv _ hmem with h1 | h1
        · intro hcon
          exact absurd hcon.2 (by simpa using Nat.not_lt.mpr h1)
        · intro hcon
          exact absurd hcon.1 (by simpa using Nat.not_lt.mpr h1)
      have hGood' : ∀ x ∈ sg :: acc, GoodS text x := by
        intro x hx
        rcases List.mem_cons.mp hx with rfl | hx2
        · exact hGsg
        · exact hGood x hx2
      have hPw' : (sg :: acc).Pairwise NoOv := List.pairwise_cons.mpr ⟨hNo, hPw⟩
      by_cases hcap : 20 ≤ (sg :: acc).length
      · rw [if_pos hcap]
        constructor
        · intro x hx
          exact hGood' x (List.mem_reverse.mp hx)
        · exact List.pairwise_reverse.mpr (hPw'.imp fun h => noOv_symm h)
      · rw [if_neg hcap]
        refine ih (i + 1) ((sg.start, sg.endPos) :: taken) (sg :: acc) hGood' ?_ hPw'
        intro x hx
        rcases List.mem_cons.mp hx with rfl | hx2
        · exact List.mem_cons_self _ _
        · exact List.mem_cons_of_mem _ (hTk x hx2)

lemma reconcileLoop_length_le (text : List Char) (now : Int) :
    ∀ (rest : List RawCand) (i : Nat) (taken : List (Nat × Nat))
      (acc : List Suggestion), acc.length < 20 →
      (reconcileLoop text now rest i taken acc).length ≤ 20 := by
  intro rest
  induction rest with
  | nil =>
    intro i taken acc h
    simpa [reconcileLoop] using Nat.le_of_lt h
  | cons rc rest ih =>
    intro i taken acc h
    cases hs : step text now i taken rc with
    | none =>
      rw [reconcileLoop_cons_none hs]
      exact ih _ _ _ h
    | some sg =>
      rw [reconcileLoop_cons_some hs]
      by_cases hcap : 20 ≤ (sg :: acc).length
      · rw [if_pos hcap]
        simp only [List.length_reverse, List.length_cons]
        omega
      · rw [if_neg hcap]
        refine ih _ _ _ ?_
        simp only [List.length_cons] at hcap ⊢
        omega

/-- Erase the id field, the only output field that depends on the clock
reading. -/
def eraseId (sg : Suggestion) : Suggestion := { sg with id := [] }

lemma reconcileLoop_eraseId (text : List Char) (now1 now2 : Int) :
    ∀ (rest : List RawCand) (i : Nat) (taken : List (Nat × Nat))
      (acc1 acc2 : List Suggestion), acc1.map eraseId = acc2.map eraseId →
      (reconcileLoop text now1 rest i taken acc1).map eraseId =
        (reconcileLoop text now2 rest i taken acc2).map eraseId := by
  intro rest
  induction rest with
  | nil =>
    intro i taken acc1 acc2 h
    simp only [reconcileLoop, List.map_reverse, h]
  | cons rc rest ih =>
    intro i taken acc1 acc2 h
    have hlen : acc1.length = acc2.length := by
      simpa using congrArg List.length h
    cases hs : stepCore text taken rc with
    | none =>
      have h1 : step text now1 i taken rc = none := by simp [step, hs]
      have h2 : step text now2 i taken rc = none := by simp [step, hs]
      rw [reconcileLoop_cons_none h1, reconcileLoop_cons_none h2]
      exact ih _ _ _ _ h
    | some q =>
      obtain ⟨c0, s0, e0, a0⟩ := q
      have h1 : step text now1 i taken rc = some (mkFixed now1 i c0 s0 e0 a0) := by
        simp [step, hs]
      have h2 : step text now2 i taken rc = some (mkFixed now2 i c0 s0 e0 a0) := by
        simp [step, hs]
      rw [reconcileLoop_cons_some h1, reconcileLoop_cons_some h2]
      have hmk : eraseId (mkFixed now1 i c0 s0 e0 a0) =
          eraseId (mkFixed now2 i c0 s0 e0 a0) := rfl
      have hmap : (mkFixed now1 i c0 s0 e0 a0 :: acc1).map eraseId =
          (mkFixed now2 i c0 s0 e0 a0 :: acc2).map eraseId := by
        simp only [List.map_cons, hmk, h]
      have e1s : (mkFixed now1 i c0 s0 e0 a0).start = s0 := rfl
      have e1e : (mkFixed now1 i c0 s0 e0 a0).endPos = e0 := rfl
      have e2s : (mkFixed now2 i c0 s0 e0 a0).start = s0 := rfl
      have e2e : (mkFixed now2 i c0 s0 e0 a0).endPos = e0 := rfl
      by_cases hcap : 20 ≤ (mkFixed now1 i c0 s0 e0 a0 :: acc1).length
      · have hcap2 : 20 ≤ (mkFixed now2 i c0 s0 e0 a0 :: acc2).length := by
          simp only [List.length_cons] at hcap ⊢
          omega
        rw [if_pos hcap, if_pos hcap2, List.map_reverse, List.map_reverse, hmap]
      · have hcap2 : ¬20 ≤ (mkFixed now2 i c0 s0 e0 a0 :: acc2).length := by
          simp only [List.length_cons] at hcap ⊢
          omega
        rw [if_neg hcap, if_neg hcap2, e1s, e1e, e2s, e2e]
        exact ih _ _ _ _ hmap

lemma lowerStr_sliceList (t : List Char) (s e : Nat) :
    lowerStr (sliceList t s e) = sliceList (lowerStr t) s e := by
  simp [lowerStr, sliceList, List.map_take, List.map_drop]

lemma stepCore_extra (text : List Char) (taken : List (Nat × Nat))
    (cat sev msg bef aft : Option (List Char)) (sR eR : JsNumField)
    (idf : Option (List Char)) (ex ex2 : List (List Char × JsLit)) :
    stepCore text taken (RawCand.obj ⟨cat, sev, msg, bef, aft, sR, eR, idf, ex2⟩) =
      (stepCore text taken (RawCand.obj ⟨cat, sev, msg, bef, aft, sR, eR, idf, ex⟩)).map
        (fun q => (⟨cat, sev, msg, bef, aft, sR, eR, idf, ex2⟩, q.2)) := by
  unfold stepCore
  dsimp only [basicSuggestionShapeValid]
  split
  · split
    · split
      · cases hr : resolveSpan text (bef.getD []) sR eR with
        | none => rfl
        | some q =>
          obtain ⟨s0, e0, a0⟩ := q
          by_cases hov : overlaps taken s0 e0 = true
          · simp [hov]
          · simp [hov]
      · rfl
    · rfl
  · rfl

/-! ### The example inputs used by the concrete parts of the claims -/

/-- A structurally valid candidate matching the text abcdef at span 0 to 3. -/
def exC1cand : RawCand := .obj
  { category? := some "typo".toList, severity? := none,
    message? := some "m".toList, before? := some "abc".toList,
    after? := some "x".toList, startRaw := .num 0, endRaw := .num 3,
    id? := some "a".toList, extra := [] }

/-- The suggestion produced from exC1cand. -/
def exC1sg : Suggestion :=
  { start := 0, endPos := 3, category := "typo".toList, severity := none,
    message := "m".toList, before := "abc".toList, after := "x".toList,
    id := "a".toList, extra := [] }

/-- First of two overlapping candidates on the text abcdef. -/
def exC2candA : RawCand := .obj
  { category? := some "typo".toList, severity? := none,
    message? := some "m".toList, before? := some "abc".toList,
    after? := some "x".toList, startRaw := .num 0, endRaw := .num 3,
    id? := some "a".toList, extra := [] }

/-- Second of two overlapping candidates on the text abcdef; its span 1 to 4
overlaps the span 0 to 3 of the first. -/
def exC2candB : RawCand := .obj
  { category? := some "typo".toList, severity? := none,
    message? := some "m".toList, before? := some "bcd".toList,
    after? := some "x".toList, startRaw := .num 1, endRaw := .num 4,
    id? := some "b".toList, extra := [] }

/-- The candidate of the spec example: before sya in lowercase while the text
reads Sya, with reported span 0 to 3. -/
def exC4cand : RawCand := .obj
  { category? := some "typo".toList, severity? := none,
    message? := some "m".toList, before? := some "sya".toList,
    after? := some "Saya".toList, startRaw := .num 0, endRaw := .num 3,
    id? := some "k".toList, extra := [] }

/-- A candidate with an empty before string and an empty reported span at
position 5 of the text hello: every check passes and the empty interval is
accepted. -/
def exC5cand : RawCand := .obj
  { category? := some "typo".toList, severity? := none,
    message? := some "m".toList, before? := some [],
    after? := some "x".toList, startRaw := .num 5, endRaw := .num 5,
    id? := some "i".toList, extra := [] }

/-- The text of 25 distinct letters for the cap example. -/
def exC6text : List Char := (List.range 25).map fun i => Char.ofNat (97 + i)

/-- The i-th of 25 structurally valid, pairwise non-overlapping candidates. -/
def exC6cand (i : Nat) : RawCand := .obj
  { category? := some "typo".toList, severity? := none,
    message? := some "m".toList, before? := some [Char.ofNat (97 + i)],
    after? := some "z".toList, startRaw := .num i, endRaw := .num (i + 1),
    id? := some "x".toList, extra := [] }

/-- The 25 candidates for the cap example. -/
def exC6cands : List RawCand := (List.range 25).map exC6cand

/-- A valid candidate without an id, so the output id is synthesized from the
clock reading. -/
def exC7cand : RawCand := .obj
  { category? := some "typo".toList, severity? := none,
    message? := some "m".toList, before? := some "ab".toList,
    after? := some "x".toList, startRaw := .num 0, endRaw := .num 2,
    id? := none, extra := [] }

/-! ### The claims -/

/-- Claim C1: for every suggestion in the output of the reconciliation
engine, for every candidate array and every original text, the original text
sliced at the suggestion span equals its before field exactly, character for
character and case-sensitive, after any offset repair. -/
theorem claim_C1 (text : List Char) (cands : List RawCand) (now : Int)
    (sg : Suggestion) (h : sg ∈ processCands text cands now) :
    sliceList text sg.start sg.endPos = sg.before := by
  have hinv := reconcileLoop_invariant text now cands 0 [] []
    (by simp) (by simp) List.Pairwise.nil
  exact ((hinv.1 sg h).1).symm

/-- Witness for claim C1 at a concrete candidate and text. -/
theorem claim_C1_witness :
    sliceList "abcdef".toList exC1sg.start exC1sg.endPos = exC1sg.before :=
  claim_C1 "abcdef".toList [exC1cand] 0 exC1sg (by decide)

/-- Claim C2: no two suggestions in one output overlap under the half-open
test (start of one below end of the other, both ways); and for two
candidates whose corrected spans overlap, the first in candidate order is
accepted and the later one is dropped, with no merging. -/
theorem claim_C2 :
    (∀ (text : List Char) (cands : List RawCand) (now : Int),
      (processCands text cands now).Pairwise NoOv) ∧
    (processCands "abcdef".toList [exC2candA, exC2candB] 0).map
      (fun sg => (sg.start, sg.endPos)) = [(0, 3)] := by
  constructor
  · intro text cands now
    exact (reconcileLoop_invariant text now cands 0 [] []
      (by simp) (by simp) List.Pairwise.nil).2
  · decide

/-- Claim C3: tier-1 offset repair. For a candidate whose clamped slice
differs from its nonempty before string, if before occurs exactly anywhere
in the text, the candidate is repaired rather than dropped: its start is
relocated to the occurrence nearest in absolute distance to the clamped
reported start, ties resolved to the lowest index, and its end becomes that
index plus the length of before. -/
theorem claim_C3 (text before : List Char) (startRaw endRaw : JsNumField)
    (hne : before ≠ [])
    (hmis : sliceList text (resolvedStart text.length startRaw).toNat
      (resolvedEnd text.length before.length startRaw endRaw).toNat ≠ before)
    (hocc : occurrences text before ≠ []) :
    ∃ m, resolveSpan text before startRaw endRaw =
        some (m, m + before.length, before) ∧
      m ∈ occurrences text before ∧
      (∀ j ∈ occurrences text before,
        distTo (resolvedStart text.length startRaw) m ≤
          distTo (resolvedStart text.length startRaw) j) ∧
      (∀ j ∈ occurrences text before,
        distTo (resolvedStart text.length startRaw) j =
          distTo (resolvedStart text.length startRaw) m → m ≤ j) := by
  obtain ⟨m, hfn, hmem, hmin, htie⟩ :=
    findNearestIndex_eq_some (resolvedStart text.length startRaw) hne hocc
  refine ⟨m, ?_, hmem, hmin, htie⟩
  have hslice : sliceList text m (m + before.length) = before :=
    sliceList_at_occurrence (mem_occurrences.mp hmem).2
  unfold resolveSpan
  rw [if_neg hmis, hfn]
  show some (m, m + before.length, sliceList text m (m + before.length)) =
    some (m, m + before.length, before)
  rw [hslice]

/-- Witness for claim C3: the spec example where the offset 99 is repaired to
the sole occurrence of demnstrasi at index 11. -/
theorem claim_C3_witness :
    ∃ m, resolveSpan "Ini adalah demnstrasi".toList "demnstrasi".toList
        (JsNumField.num 99) (JsNumField.num 109) =
        some (m, m + "demnstrasi".toList.length, "demnstrasi".toList) ∧
      m ∈ occurrences "Ini adalah demnstrasi".toList "demnstrasi".toList ∧
      (∀ j ∈ occurrences "Ini adalah demnstrasi".toList "demnstrasi".toList,
        distTo (resolvedStart "Ini adalah demnstrasi".toList.length
          (JsNumField.num 99)) m ≤
        distTo (resolvedStart "Ini adalah demnstrasi".toList.length
          (JsNumField.num 99)) j) ∧
      (∀ j ∈ occurrences "Ini adalah demnstrasi".toList "demnstrasi".toList,
        distTo (resolvedStart "Ini adalah demnstrasi".toList.length
          (JsNumField.num 99)) j =
        distTo (resolvedStart "Ini adalah demnstrasi".toList.length
          (JsNumField.num 99)) m → m ≤ j) :=
  claim_C3 "Ini adalah demnstrasi".toList "demnstrasi".toList
    (JsNumField.num 99) (JsNumField.num 109) (by decide) (by decide) (by decide)

/-- Claim C4: tier-2 offset repair. For a mismatching candidate whose before
has no exact occurrence but has a case-insensitive occurrence, the span is
relocated to the nearest such occurrence under the same rule, and before is
replaced with the actual original-case substring found there, so the slice
invariant still holds; in particular, on the text Sya mkn ayam the candidate
with before sya and span 0 to 3 yields the suggestion with before Sya and
the same span. -/
theorem claim_C4 :
    (∀ (text before : List Char) (startRaw endRaw : JsNumField),
      before ≠ [] →
      sliceList text (resolvedStart text.length startRaw).toNat
        (resolvedEnd text.length before.length startRaw endRaw).toNat ≠ before →
      occurrences text before = [] →
      occurrences (lowerStr text) (lowerStr before) ≠ [] →
      ∃ m, resolveSpan text before startRaw endRaw =
          some (m, m + before.length, sliceList text m (m + before.length)) ∧
        lowerStr (sliceList text m (m + before.length)) = lowerStr before ∧
        m ∈ occurrences (lowerStr text) (lowerStr before) ∧
        (∀ j ∈ occurrences (lowerStr text) (lowerStr before),
          distTo (resolvedStart text.length startRaw) m ≤
            distTo (resolvedStart text.length startRaw) j) ∧
        (∀ j ∈ occurrences (lowerStr text) (lowerStr before),
          distTo (resolvedStart text.length startRaw) j =
            distTo (resolvedStart text.length startRaw) m → m ≤ j)) ∧
    (processCands "Sya mkn ayam".toList [exC4cand] 0).map
      (fun sg => (sg.start, sg.endPos, sg.before)) = [(0, 3, "Sya".toList)] := by
  constructor
  · intro text before startRaw endRaw hne hmis hocc hoccCI
    have hemp : before.isEmpty = false := by
      simpa [List.isEmpty_iff] using hne
    have hneL : lowerStr before ≠ [] := by
      simp only [lowerStr, Ne, List.map_eq_nil_iff]
      exact hne
    have hfnone : findNearestIndex text before
        (resolvedStart text.length startRaw) = none := by
      unfold findNearestIndex
      rw [hemp, hocc]
      rfl
    obtain ⟨m, hci, hmem, hmin, htie⟩ :=
      findNearestIndexCI_eq_some (resolvedStart text.length startRaw) hneL hoccCI
    refine ⟨m, ?_, ?_, hmem, hmin, htie⟩
    · unfold resolveSpan
      rw [if_neg hmis, hfnone, hci]
    · have hsliceL : sliceList (lowerStr text) m (m + (lowerStr before).length) =
          lowerStr before :=
        sliceList_at_occurrence (mem_occurrences.mp hmem).2
      rw [lowerStr_sliceList]
      rw [lowerStr_length] at hsliceL
      exact hsliceL
  · decide

/-- Witness for the general part of claim C4: the sya example at the level of
the span resolution. -/
theorem claim_C4_witness :
    ∃ m, resolveSpan "Sya mkn ayam".toList "sya".toList
        (JsNumField.num 0) (JsNumField.num 3) =
        some (m, m + "sya".toList.length,
          sliceList "Sya mkn ayam".toList m (m + "sya".toList.length)) ∧
      lowerStr (sliceList "Sya mkn ayam".toList m (m + "sya".toList.length)) =
        lowerStr "sya".toList ∧
      m ∈ occurrences (lowerStr "Sya mkn ayam".toList) (lowerStr "sya".toList) ∧
      (∀ j ∈ occurrences (lowerStr "Sya mkn ayam".toList) (lowerStr "sya".toList),
        distTo (resolvedStart "Sya mkn ayam".toList.length (JsNumField.num 0)) m ≤
          distTo (resolvedStart "Sya mkn ayam".toList.length (JsNumField.num 0)) j) ∧
      (∀ j ∈ occurrences (lowerStr "Sya mkn ayam".toList) (lowerStr "sya".toList),
        distTo (resolvedStart "Sya mkn ayam".toList.length (JsNumField.num 0)) j =
          distTo (resolvedStart "Sya mkn ayam".toList.length (JsNumField.num 0)) m →
          m ≤ j) :=
  claim_C4.1 "Sya mkn ayam".toList "sya".toList
    (JsNumField.num 0) (JsNumField.num 3) (by decide) (by decide) (by decide) (by decide)

/-- The suggestion produced from exC5cand: an accepted empty interval. -/
def exC5sg : Suggestion :=
  { start := 5, endPos := 5, category := "typo".toList, severity := none,
    message := "m".toList, before := [], after := "x".toList,
    id := "i".toList, extra := [] }

/-- Counterexample to claim C5 as stated: a candidate whose before string is
empty and whose reported span is the empty interval at position 5 is
accepted, so the output contains a suggestion with start equal to end,
violating the strict inequality start below end. -/
theorem claim_C5_counterexample :
    ∃ sg ∈ processCands "hello".toList [exC5cand] 0, ¬sg.start < sg.endPos :=
  ⟨exC5sg, by decide, by decide⟩

/-- Claim C5, amended: every output suggestion satisfies start at most end at
most the text length; the inequality between start and end is strict
whenever the before field is nonempty (an empty before yields an accepted
empty interval). -/
theorem claim_C5 (text : List Char) (cands : List RawCand) (now : Int)
    (sg : Suggestion) (h : sg ∈ processCands text cands now) :
    sg.start ≤ sg.endPos ∧ sg.endPos ≤ text.length ∧
      (sg.before ≠ [] → sg.start < sg.endPos) := by
  have hinv := reconcileLoop_invariant text now cands 0 [] []
    (by simp) (by simp) List.Pairwise.nil
  obtain ⟨hb, hse, hel⟩ := hinv.1 sg h
  refine ⟨hse, hel, ?_⟩
  intro hne
  have hlen : (sliceList text sg.start sg.endPos).length = sg.endPos - sg.start :=
    sliceList_length hel
  rw [← hb] at hlen
  have hpos : sg.before.length ≠ 0 := by
    simpa [List.length_eq_zero] using hne
  omega

/-- Witness for the amended claim C5 at a concrete input. -/
theorem claim_C5_witness :
    exC1sg.start ≤ exC1sg.endPos ∧ exC1sg.endPos ≤ "abcdef".toList.length ∧
      (exC1sg.before ≠ [] → exC1sg.start < exC1sg.endPos) :=
  claim_C5 "abcdef".toList [exC1cand] 0 exC1sg (by decide)

/-- Claim C6: the reconciliation output never exceeds 20 suggestions, and on
25 structurally valid non-overlapping candidates exactly the first 20 in
input order survive, the last 5 dropped purely by the cap. -/
theorem claim_C6 :
    (∀ (text : List Char) (cands : List RawCand) (now : Int),
      (processCands text cands now).length ≤ 20) ∧
    (processCands exC6text exC6cands 0).map (fun sg => sg.start) =
      List.range 20 := by
  constructor
  · intro text cands now
    exact reconcileLoop_length_le text now cands 0 [] [] (by simp)
  · decide

/-- Counterexample to claim C7 as stated: on a candidate without an id, two
runs of the engine at different clock readings produce different suggestion
arrays, because the synthesized id embeds the clock value. -/
theorem claim_C7_counterexample :
    processCands "ab".toList [exC7cand] 0 ≠ processCands "ab".toList [exC7cand] 1 := by
  decide

/-- Claim C7, amended: the engine is a pure function of the candidates, the
original text and the clock reading; two runs on identical candidates and
text produce suggestion arrays that are identical except possibly in the id
fields synthesized for candidates lacking an id. -/
theorem claim_C7 (text : List Char) (cands : List RawCand) (now1 now2 : Int) :
    (processCands text cands now1).map eraseId =
      (processCands text cands now2).map eraseId :=
  reconcileLoop_eraseId text now1 now2 cands 0 [] [] [] rfl

/-- Claim C8: the in-memory limiter with 10 requests per 60000 ms window
allows a call for an identity exactly when fewer than 10 recorded timestamps
lie within the trailing window, records the new timestamp only when the call
is allowed, and hence lets 10 calls in a window through, rejects the 11th
and allows a call again after the window elapses. -/
theorem claim_C8 (now : Int) (requests : List Int) :
    ((checkRateLimitInMemory now requests).1 = true ↔
      (requests.filter fun t => decide (now - t < RATE_LIMIT_windowMs)).length <
        RATE_LIMIT_maxRequests) ∧
    ((checkRateLimitInMemory now requests).1 = true →
      (checkRateLimitInMemory now requests).2 =
        (requests.filter fun t => decide (now - t < RATE_LIMIT_windowMs)) ++ [now]) ∧
    ((checkRateLimitInMemory now requests).1 = false →
      (checkRateLimitInMemory now requests).2 = requests) ∧
    (runCalls [0, 0, 0, 0, 0, 0, 0, 0, 0, 0, 0, 60000] []).1 =
      [true, true, true, true, true, true, true, true, true, true, false, true] := by
  refine ⟨?_, ?_, ?_, by decide⟩
  · by_cases hc : RATE_LIMIT_maxRequests ≤
        (requests.filter fun t => decide (now - t < RATE_LIMIT_windowMs)).length
    · constructor
      · intro hT
        simp [checkRateLimitInMemory, hc] at hT
      · intro hlt
        exact absurd hlt (by omega)
    · constructor
      · intro _
        omega
      · intro _
        simp [checkRateLimitInMemory, hc]
  · intro ht
    by_cases hc : RATE_LIMIT_maxRequests ≤
        (requests.filter fun t => decide (now - t < RATE_LIMIT_windowMs)).length
    · simp [checkRateLimitInMemory, hc] at ht
    · simp [checkRateLimitInMemory, hc]
  · intro ht
    by_cases hc : RATE_LIMIT_maxRequests ≤
        (requests.filter fun t => decide (now - t < RATE_LIMIT_windowMs)).length
    · simp [checkRateLimitInMemory, hc]
    · simp [checkRateLimitInMemory, hc] at ht

/-- Witness for claim C8: the first call of an identity with an empty record
is allowed and its timestamp is recorded. -/
theorem claim_C8_witness :
    (checkRateLimitInMemory 0 []).1 = true ∧ (checkRateLimitInMemory 0 []).2 = [0] :=
  ⟨(claim_C8 0 []).1.mpr (by decide),
    (claim_C8 0 []).2.1 ((claim_C8 0 []).1.mpr (by decide))⟩

/-- Claim C9: when the primary model content fails both the direct parse and
the repair parse, exactly one strict retry is consulted, issued at the
minimum temperature 0 (below the primary temperature of one tenth); if the
retry yields no content or its content also fails to parse, the gateway
returns an empty suggestion list instead of an error. -/
theorem claim_C9 (jsonParse : List Char → Option ParsedDoc)
    (text content : List Char) (retryContent : Option (List Char)) (now : Int)
    (hfail : tryParseJSONWithRepair jsonParse content = none) :
    (checkTextWithOpenAI jsonParse text content retryContent now).retries = 1 ∧
    (retryContent = none →
      (checkTextWithOpenAI jsonParse text content retryContent now).suggestions = []) ∧
    (∀ retryRaw, retryContent = some retryRaw →
      tryParseJSONWithRepair jsonParse retryRaw = none →
      (checkTextWithOpenAI jsonParse text content retryContent now).suggestions = []) ∧
    strictRetryTemperature = 0 ∧ strictRetryTemperature < primaryTemperature := by
  have hred : checkTextWithOpenAI jsonParse text content retryContent now =
      retryStage jsonParse text retryContent now := by
    unfold checkTextWithOpenAI
    rw [hfail]
  rw [hred]
  refine ⟨?_, ?_, ?_, rfl, by norm_num [strictRetryTemperature, primaryTemperature]⟩
  · cases retryContent with
    | none => rfl
    | some rr =>
      show (retryParse jsonParse text rr now).retries = 1
      unfold retryParse
      cases tryParseJSONWithRepair jsonParse rr <;> rfl
  · intro hrc
    subst hrc
    rfl
  · intro rr hrc hfail2
    subst hrc
    show (retryParse jsonParse text rr now).suggestions = []
    unfold retryParse
    rw [hfail2]

/-- Witness for claim C9: a parse oracle that always fails and a content
without any JSON block. -/
theorem claim_C9_witness :
    (checkTextWithOpenAI (fun _ => none) "t".toList "x".toList none 0).retries = 1 ∧
    ((none : Option (List Char)) = none →
      (checkTextWithOpenAI (fun _ => none) "t".toList "x".toList none 0).suggestions = []) ∧
    (∀ retryRaw, (none : Option (List Char)) = some retryRaw →
      tryParseJSONWithRepair (fun _ => none) retryRaw = none →
      (checkTextWithOpenAI (fun _ => none) "t".toList "x".toList none 0).suggestions = []) ∧
    strictRetryTemperature = 0 ∧ strictRetryTemperature < primaryTemperature :=
  claim_C9 (fun _ => none) "t".toList "x".toList none 0 rfl

/-- Claim C10: fields of a candidate beyond the validated schema are copied
verbatim and unsanitized into the output suggestion through the object
spread, and acceptance does not depend on them, so in particular a
confidence value is never range-checked. -/
theorem claim_C10 (text : List Char) (now : Int) (i : Nat)
    (taken : List (Nat × Nat)) (cat sev msg bef aft : Option (List Char))
    (sR eR : JsNumField) (idf : Option (List Char))
    (ex ex2 : List (List Char × JsLit)) :
    step text now i taken (RawCand.obj ⟨cat, sev, msg, bef, aft, sR, eR, idf, ex2⟩) =
      (step text now i taken (RawCand.obj ⟨cat, sev, msg, bef, aft, sR, eR, idf, ex⟩)).map
        (fun sg => { sg with extra := ex2 }) := by
  unfold step
  rw [stepCore_extra text taken cat sev msg bef aft sR eR idf ex ex2]
  cases hc : stepCore text taken (RawCand.obj ⟨cat, sev, msg, bef, aft, sR, eR, idf, ex⟩) with
  | none => rfl
  | some q =>
    obtain ⟨c0, s0, e0, a0⟩ := q
    have hcand : c0 = ⟨cat, sev, msg, bef, aft, sR, eR, idf, ex⟩ := stepCore_cand hc
    subst hcand
    rfl

end PeriksaKata
